import Mathlib

/-!
Verification of the PDA simulation core (`src/pda_sim/core`): a shallow
embedding of `stack.py`, `config.py`, `automaton.py` and `simulator.py`
into Lean, followed by theorems settling the specified properties of the
transition guards, transition application, frontier expansion, pruning,
acceptance and the run loops.

Conventions of the embedding:
- Python `str` symbols become `String`; the reserved sentinels are the
  literal strings for epsilon and the question mark, exactly as in the code.
- The stack is a `List String` whose LAST element is the top of the stack,
  matching the Python list used by `Stack` (append at the end, pop the end).
- Fallible operations (raising `IndexError` in Python) return `Option`;
  run-level exceptions (`RuntimeError`, `ValueError`) become explicit
  outcome/error values.
- The `while` loops of `stepwise_run` and `accepts` always terminate within
  `max_steps` iterations in Python (the step counter raises past the limit),
  so they are modelled by structural recursion on the remaining step budget.
-/

/-- One point of the execution space: control state, unconsumed input,
stack snapshot (bottom to top) and human-readable history.
Mirrors `PDAConfig` in `core/config.py`. -/
structure PDAConfig where
  state : String
  remaining_input : List String
  stack : List String
  history : List String
deriving DecidableEq, Repr

/-- A PDA transition `(from_state, to_state, read, pop, push)`,
mirroring `Transition` in `core/automaton.py`. -/
structure Transition where
  from_state : String
  to_state : String
  read : String
  pop : String
  push : List String
deriving DecidableEq, Repr

/-- The static automaton definition, mirroring `Automaton` in
`core/automaton.py`. Python sets become lists; only membership is used. -/
structure Automaton where
  states : List String
  input_alphabet : List String
  stack_alphabet : List String
  initial_state : String
  final_states : List String
  transitions : List Transition
deriving DecidableEq, Repr

/-- `Automaton.get_transitions_from`: all transitions leaving `s`,
in definition order. -/
def get_transitions_from (A : Automaton) (s : String) : List Transition :=
  A.transitions.filter (fun t => t.from_state == s)

/-- `Stack.push`: appends the symbols of `seq` in order; the last element of
`seq` ends up on top (at the end of the list). -/
def stack_push (s : List String) (seq : List String) : List String :=
  s ++ seq

/-- `Stack.peek`: the top (last) element, or `none` when the stack is empty
(Python raises `IndexError`, which `simulate_step` catches into `None`). -/
def stack_peek (s : List String) : Option String :=
  s.reverse.head?

/-- `Stack.pop`: removes and returns the top (last) element; `none` models
the `IndexError` raised on an empty stack. -/
def stack_pop (s : List String) : Option (String × List String) :=
  match s.reverse with
  | [] => none
  | t :: rest => some (t, rest.reverse)

/-- Safety limit `DEFAULT_MAX_STEPS` from `core/simulator.py`. -/
def DEFAULT_MAX_STEPS : Nat := 1000

/-- Safety limit `DEFAULT_MAX_CONFIGS` from `core/simulator.py`. -/
def DEFAULT_MAX_CONFIGS : Nat := 500

/-- `_is_transition_applicable` from `core/simulator.py`: checks the input
guard (read symbol vs. current input symbol) and the stack guard (pop symbol
vs. stack top), where `none` stands for "input empty" / "stack empty".
The early-`return False` chain of the Python code is the conjunction of the
two guard expressions. -/
def is_transition_applicable (t : Transition)
    (current_input : Option String) (stack_top : Option String) : Bool :=
  (if t.read == "ε" then true
   else if t.read == "?" && current_input.isNone then true
   else if current_input.isNone then false
   else current_input == some t.read)
  &&
  (if t.pop == "ε" then true
   else if t.pop == "?" && stack_top.isNone then true
   else if stack_top.isNone then false
   else stack_top == some t.pop)

/-- The history line rendered by `_apply_transition` for a transition. -/
def history_entry (t : Transition) : String :=
  let push_str := if t.push.isEmpty then "ε" else String.intercalate "," t.push
  t.from_state ++ " → " ++ t.to_state ++
    " [read: " ++ t.read ++ ", pop: " ++ t.pop ++ ", push: " ++ push_str ++ "]"

/-- `_apply_transition` from `core/simulator.py`: copies the configuration,
sets the target state, consumes one input symbol unless `read` is epsilon or
the wildcard, pops the stack unless `pop` is epsilon (note: the code pops
also when `pop` is the wildcard), pushes `push`, and appends a history line.
`none` models a propagated `IndexError` (consume on empty input or pop on
empty stack). -/
def apply_transition (config : PDAConfig) (t : Transition) : Option PDAConfig :=
  let new_input :=
    if t.read == "ε" || t.read == "?" then some config.remaining_input
    else
      match config.remaining_input with
      | [] => none
      | _ :: rest => some rest
  match new_input with
  | none => none
  | some inp =>
    let new_stack :=
      if t.pop == "ε" then some config.stack
      else
        match stack_pop config.stack with
        | none => none
        | some (_, rest) => some rest
    match new_stack with
    | none => none
    | some st =>
      let st2 := if t.push.isEmpty then st else stack_push st t.push
      some { state := t.to_state
             remaining_input := inp
             stack := st2
             history := config.history ++ [history_entry t] }

/-- The loop body of `simulate_step`: walks the transition list, skips the
inapplicable ones, applies the applicable ones in order; the first raised
`IndexError` (`none`) aborts the whole call, as the Python exception would. -/
def apply_applicable (config : PDAConfig)
    (current_input stack_top : Option String) :
    List Transition → Option (List PDAConfig)
  | [] => some []
  | t :: ts =>
    if is_transition_applicable t current_input stack_top then
      match apply_transition config t with
      | none => none
      | some c =>
        match apply_applicable config current_input stack_top ts with
        | none => none
        | some rest => some (c :: rest)
    else apply_applicable config current_input stack_top ts

/-- `simulate_step` from `core/simulator.py`: all successor configurations of
one configuration, in transition-definition order. -/
def simulate_step (config : PDAConfig) (A : Automaton) :
    Option (List PDAConfig) :=
  apply_applicable config config.remaining_input.head?
    (stack_peek config.stack) (get_transitions_from A config.state)

/-- One frontier expansion: `simulate_step` on every configuration, results
concatenated in order (the inner loop of `stepwise_run` and `accepts`). -/
def expand_frontier (A : Automaton) : List PDAConfig → Option (List PDAConfig)
  | [] => some []
  | c :: cs =>
    match simulate_step c A with
    | none => none
    | some ns =>
      match expand_frontier A cs with
      | none => none
      | some rest => some (ns ++ rest)

/-- `score_config` from `_prune_configurations`: the ranking tuple
`(in_final_state, -remaining_input_length, -stack_size)`, compared
lexicographically, larger is better. -/
def score_config (A : Automaton) (c : PDAConfig) : Int × Int × Int :=
  ((if A.final_states.contains c.state then 1 else 0 : Int),
   -(c.remaining_input.length : Int),
   -(c.stack.length : Int))

/-- Lexicographic order on integer triples, the order Python uses to compare
the score tuples. -/
def lexLe3 (a b : Int × Int × Int) : Bool :=
  decide (a.1 < b.1) ||
    (decide (a.1 = b.1) &&
      (decide (a.2.1 < b.2.1) ||
        (decide (a.2.1 = b.2.1) && decide (a.2.2 ≤ b.2.2))))

/-- The sorting relation of `_prune_configurations`: `c` may come before `d`
in the descending sort exactly when the score of `d` is at most the score of
`c`. -/
def scoreLE (A : Automaton) (c d : PDAConfig) : Prop :=
  lexLe3 (score_config A d) (score_config A c) = true

instance (A : Automaton) : DecidableRel (scoreLE A) := fun c d =>
  inferInstanceAs (Decidable (lexLe3 (score_config A d) (score_config A c) = true))

/-- `_prune_configurations` from `core/simulator.py`: stable-sort the
configurations by score, descending, and keep the first `max_configs`.
`List.insertionSort` is stable, like Python's `sorted`. -/
def prune_configurations (A : Automaton) (max_configs : Nat)
    (configs : List PDAConfig) : List PDAConfig :=
  (List.insertionSort (scoreLE A) configs).take max_configs

/-- The frontier-size guard of `stepwise_run` (and `accepts`): prune only
when the next frontier exceeds the limit, otherwise keep it unchanged. -/
def bound_frontier (A : Automaton) (max_configs : Nat)
    (nf : List PDAConfig) : List PDAConfig :=
  if nf.length > max_configs then prune_configurations A max_configs nf else nf

/-- How a `stepwise_run` generator finishes: normally (frontier emptied),
with the `RuntimeError` for the step limit, or with the `IndexError` raised
by a pop from an empty stack inside `_apply_transition`. -/
inductive StepwiseOutcome where
  | completed
  | stepLimitExceeded
  | emptyStackPop
deriving DecidableEq, Repr

/-- The `while frontier:` loop of `stepwise_run`, with `fuel` the number of
still-allowed iterations (`max_steps - step_count`); the pair collects the
yielded frontiers after the initial one, plus the outcome. -/
def stepwise_loop (A : Automaton) (max_configs : Nat) :
    List PDAConfig → Nat → List (List PDAConfig) × StepwiseOutcome
  | [], _ => ([], .completed)
  | _ :: _, 0 => ([], .stepLimitExceeded)
  | c :: cs, fuel + 1 =>
    match expand_frontier A (c :: cs) with
    | none => ([], .emptyStackPop)
    | some nf =>
      let nf2 := bound_frontier A max_configs nf
      if nf2 = [] then ([], .completed)
      else
        let r := stepwise_loop A max_configs nf2 fuel
        (nf2 :: r.1, r.2)

/-- The initial configuration built by `stepwise_run`: initial state, full
input, an EMPTY stack (`Stack()`), and the initial history line. -/
def stepwise_initial_config (A : Automaton) (input : List String) : PDAConfig :=
  { state := A.initial_state
    remaining_input := input
    stack := []
    history := ["Configuração inicial"] }

/-- `stepwise_run` from `core/simulator.py`: the full sequence of yielded
frontiers (the initial frontier first) together with the outcome. -/
def stepwise_run (A : Automaton) (input : List String)
    (max_steps : Nat) (max_configs : Nat) :
    List (List PDAConfig) × StepwiseOutcome :=
  let c0 := stepwise_initial_config A input
  let r := stepwise_loop A max_configs [c0] max_steps
  ([c0] :: r.1, r.2)

/-- `_is_accepting_configuration` from `core/simulator.py`: the input must
be fully consumed in BOTH modes; then `final_state` checks membership in the
final states and any other mode string checks stack emptiness. -/
def is_accepting_configuration (config : PDAConfig) (A : Automaton)
    (acceptance_mode : String) : Bool :=
  if !config.remaining_input.isEmpty then false
  else if acceptance_mode == "final_state" then
    A.final_states.contains config.state
  else config.stack.isEmpty

/-- The acceptance scan of `accepts`: the history of the first configuration
of the frontier, in order, that is accepting; `none` when there is none. -/
def first_accepting_history (A : Automaton) (acceptance_mode : String) :
    List PDAConfig → Option (List String)
  | [] => none
  | c :: cs =>
    if is_accepting_configuration c A acceptance_mode then some c.history
    else first_accepting_history A acceptance_mode cs

/-- The exceptions `accepts` can raise: `ValueError` for a bad mode string,
`RuntimeError` for the step limit, `IndexError` from the empty-stack pop. -/
inductive SimError where
  | invalidMode
  | stepLimitExceeded
  | emptyStackPop
deriving DecidableEq, Repr

/-- The `while frontier:` loop of `accepts`: step-limit check first, then
the eager acceptance scan, then expansion and size-bounded pruning. -/
def accepts_loop (A : Automaton) (acceptance_mode : String) :
    List PDAConfig → Nat → Except SimError (Bool × Option (List String))
  | [], _ => .ok (false, none)
  | _ :: _, 0 => .error .stepLimitExceeded
  | c :: cs, fuel + 1 =>
    match first_accepting_history A acceptance_mode (c :: cs) with
    | some h => .ok (true, some h)
    | none =>
      match expand_frontier A (c :: cs) with
      | none => .error .emptyStackPop
      | some nf =>
        accepts_loop A acceptance_mode
          (bound_frontier A DEFAULT_MAX_CONFIGS nf) fuel

/-- The initial configuration built by `accepts`: initial state, full input,
an EMPTY stack (`Stack()`), and its own initial history line. -/
def accepts_initial_config (A : Automaton) (input : List String) : PDAConfig :=
  { state := A.initial_state
    remaining_input := input
    stack := []
    history := ["Início da execução"] }

/-- `accepts` from `core/simulator.py`: validates the mode string, then runs
the frontier loop from the initial configuration. -/
def accepts (A : Automaton) (input : List String) (max_steps : Nat)
    (acceptance_mode : String) : Except SimError (Bool × Option (List String)) :=
  if !(acceptance_mode == "final_state" || acceptance_mode == "empty_stack") then
    .error .invalidMode
  else
    accepts_loop A acceptance_mode [accepts_initial_config A input] max_steps

/-- The loop-suppression signature `(state, remaining_input, stack_contents)`
of a configuration, as the spec defines it (the code keeps no such map). -/
def signature (c : PDAConfig) : String × List String × List String :=
  (c.state, c.remaining_input, c.stack)

/-- The frontier reached after `k` expansion-plus-bounding steps, `none` when
an expansion raised the empty-stack pop error on the way. -/
def iter_frontier (A : Automaton) (max_configs : Nat) :
    List PDAConfig → Nat → Option (List PDAConfig)
  | f, 0 => some f
  | f, k + 1 =>
    match expand_frontier A f with
    | none => none
    | some nf => iter_frontier A max_configs (bound_frontier A max_configs nf) k

/-- Decidable check that the run, started at `frontier`, is still alive after
`k` steps: no error so far, the frontier is nonempty and holds no accepting
configuration. -/
def frontier_alive (A : Automaton) (max_configs : Nat)
    (acceptance_mode : String) (frontier : List PDAConfig) (k : Nat) : Bool :=
  match iter_frontier A max_configs frontier k with
  | none => false
  | some f => !f.isEmpty && (first_accepting_history A acceptance_mode f).isNone

/-! ### Concrete automata used as test inputs -/

/-- A two-state automaton accepting after one `a` (the §8 scenario for
leftover-input acceptance). -/
def autA : Automaton :=
  ⟨["q0", "qf"], ["a", "b"], [], "q0", ["qf"], [⟨"q0", "qf", "a", "ε", []⟩]⟩

/-- An automaton with a single wildcard-pop transition out of the initial
state, exercising the `pop` sentinel on an empty stack. -/
def autWild : Automaton :=
  ⟨["q0", "q1"], [], [], "q0", [], [⟨"q0", "q1", "ε", "?", []⟩]⟩

/-- A one-state automaton with a pure epsilon self-loop: every step
reproduces the same configuration signature forever. -/
def autLoop : Automaton :=
  ⟨["q0"], [], [], "q0", [], [⟨"q0", "q0", "ε", "ε", []⟩]⟩

/-- A one-state automaton whose initial state is final and which keeps an
epsilon self-loop pushing one symbol per step. -/
def autFin : Automaton :=
  ⟨["q0"], [], ["Z"], "q0", ["q0"], [⟨"q0", "q0", "ε", "ε", ["Z"]⟩]⟩

/-! ### Helper lemmas -/

/-- The top of a stack is `none` exactly on the empty stack. -/
theorem stack_peek_eq_none {s : List String} : stack_peek s = none ↔ s = [] := by
  unfold stack_peek
  rw [List.head?_eq_none_iff, List.reverse_eq_nil_iff]

/-- Either guard chain of `_is_transition_applicable`, characterised: the
sentinel epsilon always passes, the wildcard passes on the empty resource,
and otherwise the symbol must equal the present head. -/
theorem guard_iff (r : String) (x : Option String) :
    (if r == "ε" then true
     else if r == "?" && x.isNone then true
     else if x.isNone then false
     else x == some r) = true ↔
      (r = "ε" ∨ (r = "?" ∧ x = none) ∨ (∃ h, x = some h ∧ r = h)) := by
  cases x with
  | none =>
    by_cases he : r = "ε" <;> by_cases hq : r = "?" <;>
      simp [he, hq, Option.isNone]
  | some a =>
    by_cases he : r = "ε"
    · simp [he]
    · by_cases ha : r = a
      · subst ha
        simp [he]
      · simp [he, ha]
        intro h
        exact absurd h.symm ha

/-- C7: a transition is applicable to a configuration exactly when both the
input guard and the stack guard hold: the input guard holds when `read` is
epsilon, or `read` is the wildcard and the remaining input is empty, or
`read` equals the head of the remaining input; the stack guard holds when
`pop` is epsilon, or `pop` is the wildcard and the stack is empty, or the
stack is nonempty and its top equals `pop`. -/
theorem C7_applicability_iff (t : Transition) (c : PDAConfig) :
    is_transition_applicable t c.remaining_input.head? (stack_peek c.stack)
        = true ↔
      ((t.read = "ε" ∨ (t.read = "?" ∧ c.remaining_input = []) ∨
          (∃ h rest, c.remaining_input = h :: rest ∧ t.read = h)) ∧
       (t.pop = "ε" ∨ (t.pop = "?" ∧ c.stack = []) ∨
          (c.stack ≠ [] ∧ stack_peek c.stack = some t.pop))) := by
  unfold is_transition_applicable
  rw [Bool.and_eq_true, guard_iff, guard_iff]
  constructor
  · rintro ⟨hin, hstk⟩
    constructor
    · rcases hin with h | ⟨h1, h2⟩ | ⟨h, hh, hr⟩
      · exact Or.inl h
      · exact Or.inr (Or.inl ⟨h1, by rwa [List.head?_eq_none_iff] at h2⟩)
      · cases hrem : c.remaining_input with
        | nil => rw [hrem] at hh; simp at hh
        | cons a rest =>
          rw [hrem] at hh
          simp only [List.head?_cons, Option.some.injEq] at hh
          exact Or.inr (Or.inr ⟨a, rest, rfl, hr.trans hh.symm⟩)
    · rcases hstk with h | ⟨h1, h2⟩ | ⟨s, hs, hp⟩
      · exact Or.inl h
      · exact Or.inr (Or.inl ⟨h1, stack_peek_eq_none.mp h2⟩)
      · refine Or.inr (Or.inr ⟨?_, by rw [hs, hp]⟩)
        intro hnil
        rw [hnil] at hs
        exact Option.noConfusion hs
  · rintro ⟨hin, hstk⟩
    constructor
    · rcases hin with h | ⟨h1, h2⟩ | ⟨a, rest, hh, hr⟩
      · exact Or.inl h
      · exact Or.inr (Or.inl ⟨h1, by rw [List.head?_eq_none_iff]; exact h2⟩)
      · exact Or.inr (Or.inr ⟨a, by rw [hh]; exact ⟨rfl, hr⟩⟩)
    · rcases hstk with h | ⟨h1, h2⟩ | ⟨hne, htop⟩
      · exact Or.inl h
      · exact Or.inr (Or.inl ⟨h1, stack_peek_eq_none.mpr h2⟩)
      · exact Or.inr (Or.inr ⟨t.pop, htop, rfl⟩)

/-- C1 counterexample: with the one-transition automaton accepting after a
single `a`, the configuration that has reached the final state `qf` with the
leftover input `b` is NOT accepting under `final_state` mode, and
`accepts` on input `aaab` returns `(False, None)` instead of reporting
accepted with leftover input, because `_is_accepting_configuration` first
requires the remaining input to be empty. -/
theorem C1_counterexample :
    autA.final_states.contains "qf" = true ∧
    is_accepting_configuration ⟨"qf", ["b"], [], []⟩ autA "final_state"
        = false ∧
    accepts autA ["a", "a", "a", "b"] 10 "final_state" = .ok (false, none) :=
  ⟨rfl, rfl, rfl⟩

/-- C1 (amended): under acceptance mode `final_state`, a configuration is
accepting if and only if its remaining input is fully consumed AND its state
is one of the automaton's final states; a final state reached with leftover
input is not accepting. -/
theorem C1_final_state_requires_consumed_input (c : PDAConfig) (A : Automaton) :
    is_accepting_configuration c A "final_state" = true ↔
      (c.remaining_input = [] ∧ c.state ∈ A.final_states) := by
  unfold is_accepting_configuration
  cases hinp : c.remaining_input with
  | nil => simp [List.elem_iff]
  | cons a rest => simp

/-- C2: the claim says applying an applicable transition never fails and
that a wildcard-empty `pop` does not pop, but `_apply_transition` pops the
stack for every `pop` other than epsilon: the wildcard-pop transition is
applicable to the empty-stack configuration (the guard classifies the stack
as empty), yet applying it pops the empty stack and raises `IndexError`,
which propagates out of `simulate_step` and aborts a whole run. -/
theorem C2_wildcard_pop_raises :
    is_transition_applicable ⟨"q0", "q1", "ε", "?", []⟩ none none = true ∧
    apply_transition ⟨"q0", [], [], []⟩ ⟨"q0", "q1", "ε", "?", []⟩ = none ∧
    simulate_step ⟨"q0", [], [], []⟩ autWild = none ∧
    (stepwise_run autWild [] 10 500).2 = StepwiseOutcome.emptyStackPop :=
  ⟨rfl, rfl, rfl, rfl⟩

/-- Acceptance predicate for `empty_stack` mode as the SPEC words it (§4.8):
input fully consumed, and the stack empty or holding only the sentinel
initial-stack symbol. Written from the spec only, for comparison with the
code's predicate; the code's `Automaton` has no initial-stack-symbol field,
so the sentinel is a parameter here. -/
def spec_empty_stack_accepting (sentinel : Option String) (c : PDAConfig) :
    Bool :=
  c.remaining_input.isEmpty &&
    (c.stack.isEmpty ||
      (match sentinel with
       | some z => c.stack == [z]
       | none => false))

/-- C3 counterexample: a configuration with consumed input whose stack holds
only the sentinel symbol `Z0` is accepting per the spec's wording but NOT
accepting for the code, whose `empty_stack` branch tests only
`stack.is_empty()` (no sentinel exists in the code's automaton model). -/
theorem C3_counterexample :
    spec_empty_stack_accepting (some "Z0") ⟨"q0", [], ["Z0"], []⟩ = true ∧
    is_accepting_configuration ⟨"q0", [], ["Z0"], []⟩ autA "empty_stack"
        = false :=
  ⟨rfl, rfl⟩

/-- C3 (amended): under acceptance mode `empty_stack`, a configuration is
accepting if and only if its remaining input is fully consumed and its stack
is literally empty; there is no sentinel initial-stack-symbol disjunct. -/
theorem C3_empty_stack_iff (c : PDAConfig) (A : Automaton) :
    is_accepting_configuration c A "empty_stack" = true ↔
      (c.remaining_input = [] ∧ c.stack = []) := by
  unfold is_accepting_configuration
  have hm : (("empty_stack" : String) == "final_state") = false := rfl
  cases hinp : c.remaining_input with
  | nil => simp [hm, List.isEmpty_iff]
  | cons a rest => simp

/-- Totality of the lexicographic triple order. -/
theorem lexLe3_total (a b : Int × Int × Int) :
    lexLe3 a b = true ∨ lexLe3 b a = true := by
  obtain ⟨a1, a2, a3⟩ := a
  obtain ⟨b1, b2, b3⟩ := b
  simp only [lexLe3, Bool.or_eq_true, Bool.and_eq_true, decide_eq_true_eq]
  omega

/-- Transitivity of the lexicographic triple order. -/
theorem lexLe3_trans {a b c : Int × Int × Int}
    (h1 : lexLe3 a b = true) (h2 : lexLe3 b c = true) : lexLe3 a c = true := by
  obtain ⟨a1, a2, a3⟩ := a
  obtain ⟨b1, b2, b3⟩ := b
  obtain ⟨c1, c2, c3⟩ := c
  simp only [lexLe3, Bool.or_eq_true, Bool.and_eq_true, decide_eq_true_eq]
      at h1 h2 ⊢
  omega

instance (A : Automaton) : IsTotal PDAConfig (scoreLE A) :=
  ⟨fun c d => lexLe3_total (score_config A d) (score_config A c)⟩

instance (A : Automaton) : IsTrans PDAConfig (scoreLE A) :=
  ⟨fun _ _ _ hab hbc => lexLe3_trans hbc hab⟩

/-- The ranking of the claim, word for word: `c` ranks at least as high as
`d` when `c` is in a final state and `d` is not, or they agree on finality
and `c` has less remaining input, or also equal remaining input and a stack
no larger. -/
def claim_ranks_ge (A : Automaton) (c d : PDAConfig) : Prop :=
  (A.final_states.contains c.state = true ∧
     A.final_states.contains d.state = false) ∨
  (A.final_states.contains c.state = A.final_states.contains d.state ∧
    (c.remaining_input.length < d.remaining_input.length ∨
      (c.remaining_input.length = d.remaining_input.length ∧
        c.stack.length ≤ d.stack.length)))

/-- The code's descending score order coincides with the claim's ranking
tuple `(is-final desc, remaining-input length asc, stack size asc)`. -/
theorem scoreLE_iff_claim (A : Automaton) (c d : PDAConfig) :
    scoreLE A c d ↔ claim_ranks_ge A c d := by
  unfold scoreLE claim_ranks_ge score_config lexLe3
  cases hc : A.final_states.contains c.state <;>
    cases hd : A.final_states.contains d.state <;>
      simp [hc, hd] <;> omega

/-- C6: when the next frontier does not exceed `max_configs` it is kept
unchanged; when it does, the retained frontier is exactly a top-`max_configs`
selection under the documented ranking tuple: it has length `max_configs`,
and together with the dropped configurations it is a permutation of the
original frontier, with every retained configuration ranking at least as
high as every dropped one. -/
theorem C6_pruning_top_ranked (A : Automaton) (maxc : Nat)
    (nf : List PDAConfig) :
    (¬ nf.length > maxc → bound_frontier A maxc nf = nf) ∧
    (nf.length > maxc →
      (bound_frontier A maxc nf).length = maxc ∧
      ∃ dropped,
        nf.Perm (bound_frontier A maxc nf ++ dropped) ∧
        ∀ c ∈ bound_frontier A maxc nf, ∀ d ∈ dropped,
          claim_ranks_ge A c d) := by
  constructor
  · intro h
    simp [bound_frontier, h]
  · intro h
    have hb : bound_frontier A maxc nf = prune_configurations A maxc nf := by
      simp [bound_frontier, h]
    have hperm : (List.insertionSort (scoreLE A) nf).Perm nf :=
      List.perm_insertionSort _ _
    have hsort : List.Sorted (scoreLE A) (List.insertionSort (scoreLE A) nf) :=
      List.sorted_insertionSort _ _
    have hlen : (List.insertionSort (scoreLE A) nf).length = nf.length :=
      hperm.length_eq
    refine ⟨?_, (List.insertionSort (scoreLE A) nf).drop maxc, ?_, ?_⟩
    · rw [hb]
      unfold prune_configurations
      rw [List.length_take, hlen]
      omega
    · rw [hb]
      unfold prune_configurations
      have hsplit := List.take_append_drop maxc (List.insertionSort (scoreLE A) nf)
      rw [hsplit]
      exact hperm.symm
    · intro c hcmem d hdmem
      rw [hb] at hcmem
      unfold prune_configurations at hcmem
      have hpair : ((List.insertionSort (scoreLE A) nf).take maxc ++
          (List.insertionSort (scoreLE A) nf).drop maxc).Pairwise (scoreLE A) := by
        rw [List.take_append_drop]
        exact hsort
      rw [List.pairwise_append] at hpair
      exact (scoreLE_iff_claim A c d).mp (hpair.2.2 c hcmem d hdmem)

/-- C6 witness: a frontier of two configurations at limit 1 is cut to length
1, while a frontier already within the limit is returned unchanged. -/
theorem C6_witness :
    bound_frontier autA 1 [⟨"q0", [], [], []⟩] = [⟨"q0", [], [], []⟩] ∧
    (bound_frontier autA 1
        [⟨"q0", ["a"], [], []⟩, ⟨"qf", [], [], []⟩]).length = 1 :=
  ⟨(C6_pruning_top_ranked autA 1 _).1 (by decide),
   ((C6_pruning_top_ranked autA 1 _).2 (by decide)).1⟩

/-- Unfolding of one productive `stepwise_run` iteration: nonerroring
expansion with a nonempty (bounded) next frontier yields that frontier and
continues from it. -/
theorem stepwise_loop_cons_succ (A : Automaton) (maxc : Nat) (c : PDAConfig)
    (cs : List PDAConfig) (fuel : Nat) (nf : List PDAConfig)
    (hexp : expand_frontier A (c :: cs) = some nf)
    (hne : bound_frontier A maxc nf ≠ []) :
    stepwise_loop A maxc (c :: cs) (fuel + 1) =
      (bound_frontier A maxc nf ::
          (stepwise_loop A maxc (bound_frontier A maxc nf) fuel).1,
       (stepwise_loop A maxc (bound_frontier A maxc nf) fuel).2) := by
  conv_lhs => unfold stepwise_loop
  rw [hexp]
  simp [hne]

/-- Unfolding of one `accepts` iteration in which no configuration of the
frontier is accepting: the loop expands and continues. -/
theorem accepts_loop_cons_succ (A : Automaton) (mode : String) (c : PDAConfig)
    (cs : List PDAConfig) (fuel : Nat) (nf : List PDAConfig)
    (hacc : first_accepting_history A mode (c :: cs) = none)
    (hexp : expand_frontier A (c :: cs) = some nf) :
    accepts_loop A mode (c :: cs) (fuel + 1) =
      accepts_loop A mode (bound_frontier A DEFAULT_MAX_CONFIGS nf) fuel := by
  conv_lhs => unfold accepts_loop
  rw [hacc, hexp]

/-- Unfolding of an `accepts` iteration that finds an accepting
configuration: the loop stops at once with its history. -/
theorem accepts_loop_found (A : Automaton) (mode : String) (c : PDAConfig)
    (cs : List PDAConfig) (fuel : Nat) (h : List String)
    (hacc : first_accepting_history A mode (c :: cs) = some h) :
    accepts_loop A mode (c :: cs) (fuel + 1) = .ok (true, some h) := by
  unfold accepts_loop
  rw [hacc]

/-- One iterate of the expansion-and-bounding step relation. -/
theorem iter_frontier_succ (A : Automaton) (maxc : Nat) (f : List PDAConfig)
    (k : Nat) (nf : List PDAConfig) (hexp : expand_frontier A f = some nf) :
    iter_frontier A maxc f (k + 1)
      = iter_frontier A maxc (bound_frontier A maxc nf) k := by
  conv_lhs => unfold iter_frontier
  rw [hexp]

/-- A run that stays alive through its whole step budget ends the stepwise
loop with the step-limit error. -/
theorem stepwise_loop_limit (A : Automaton) (maxc : Nat) (mode : String) :
    ∀ (fuel : Nat) (frontier : List PDAConfig),
      (∀ k, k ≤ fuel → frontier_alive A maxc mode frontier k = true) →
      (stepwise_loop A maxc frontier fuel).2
        = StepwiseOutcome.stepLimitExceeded := by
  intro fuel
  induction fuel with
  | zero =>
    intro frontier h
    have h0 := h 0 (Nat.le_refl 0)
    unfold frontier_alive iter_frontier at h0
    cases frontier with
    | nil => simp at h0
    | cons c cs => rfl
  | succ fuel ih =>
    intro frontier h
    have h0 := h 0 (Nat.zero_le _)
    cases frontier with
    | nil =>
      unfold frontier_alive iter_frontier at h0
      simp at h0
    | cons c cs =>
      have h1 := h 1 (by omega)
      cases hexp : expand_frontier A (c :: cs) with
      | none =>
        unfold frontier_alive at h1
        rw [iter_frontier, hexp] at h1
        simp at h1
      | some nf =>
        have hiter1 : iter_frontier A maxc (c :: cs) 1
            = some (bound_frontier A maxc nf) := by
          rw [iter_frontier_succ A maxc (c :: cs) 0 nf hexp]
          rfl
        have hne : bound_frontier A maxc nf ≠ [] := by
          unfold frontier_alive at h1
          rw [hiter1] at h1
          intro hnil
          rw [hnil] at h1
          simp at h1
        have hshift : ∀ k, k ≤ fuel →
            frontier_alive A maxc mode (bound_frontier A maxc nf) k = true := by
          intro k hk
          have hk1 := h (k + 1) (by omega)
          unfold frontier_alive at hk1 ⊢
          rw [iter_frontier_succ A maxc (c :: cs) k nf hexp] at hk1
          exact hk1
        rw [stepwise_loop_cons_succ A maxc c cs fuel nf hexp hne]
        exact ih (bound_frontier A maxc nf) hshift

/-- A run that stays alive (never accepting, never erroring, never empty)
through its whole step budget makes `accepts` fail with the step-limit
error. -/
theorem accepts_loop_limit (A : Automaton) (mode : String) :
    ∀ (fuel : Nat) (frontier : List PDAConfig),
      (∀ k, k ≤ fuel → frontier_alive A DEFAULT_MAX_CONFIGS mode frontier k
          = true) →
      accepts_loop A mode frontier fuel = .error SimError.stepLimitExceeded := by
  intro fuel
  induction fuel with
  | zero =>
    intro frontier h
    have h0 := h 0 (Nat.le_refl 0)
    unfold frontier_alive iter_frontier at h0
    cases frontier with
    | nil => simp at h0
    | cons c cs => rfl
  | succ fuel ih =>
    intro frontier h
    have h0 := h 0 (Nat.zero_le _)
    cases frontier with
    | nil =>
      unfold frontier_alive iter_frontier at h0
      simp at h0
    | cons c cs =>
      have hacc : first_accepting_history A mode (c :: cs) = none := by
        unfold frontier_alive iter_frontier at h0
        rw [Bool.and_eq_true, Option.isNone_iff_eq_none] at h0
        exact h0.2
      have h1 := h 1 (by omega)
      cases hexp : expand_frontier A (c :: cs) with
      | none =>
        unfold frontier_alive at h1
        rw [iter_frontier, hexp] at h1
        simp at h1
      | some nf =>
        have hshift : ∀ k, k ≤ fuel →
            frontier_alive A DEFAULT_MAX_CONFIGS mode
              (bound_frontier A DEFAULT_MAX_CONFIGS nf) k = true := by
          intro k hk
          have hk1 := h (k + 1) (by omega)
          unfold frontier_alive at hk1 ⊢
          rw [iter_frontier_succ A DEFAULT_MAX_CONFIGS (c :: cs) k nf hexp]
              at hk1
          exact hk1
        rw [accepts_loop_cons_succ A mode c cs fuel nf hacc hexp]
        exact ih (bound_frontier A DEFAULT_MAX_CONFIGS nf) hshift

/-- C4 counterexample: with the epsilon self-loop automaton, a 5-step
`stepwise_run` yields six frontiers and every one of them contains a
configuration with the very same signature `(q0, [], [])` — a successor
whose signature has already been kept (in particular twice, or any number of
times up to five) is NOT discarded and keeps entering the next frontier;
the run ends only because of the step limit. No per-signature visit cap is
enforced. -/
theorem C4_counterexample :
    (stepwise_run autLoop [] 5 500).1.length = 6 ∧
    (stepwise_run autLoop [] 5 500).2 = StepwiseOutcome.stepLimitExceeded ∧
    ((stepwise_run autLoop [] 5 500).1.all
        (fun f => f.any
          (fun c => decide (signature c = ("q0", [], []))))) = true :=
  ⟨rfl, rfl, rfl⟩

/-- C4 (amended): the code keeps no per-signature visit counts: whenever the
expansion of a nonempty frontier succeeds and yields a nonempty successor
list within the size limit, the ENTIRE successor list becomes the next
yielded frontier — no successor is ever discarded because its signature was
already visited; the only run-wide brakes are the step limit and size-based
pruning. -/
theorem C4_no_signature_cap (A : Automaton) (maxc : Nat) (c : PDAConfig)
    (cs : List PDAConfig) (fuel : Nat) (nf : List PDAConfig)
    (hexp : expand_frontier A (c :: cs) = some nf)
    (hne : nf ≠ []) (hsize : ¬ nf.length > maxc) :
    stepwise_loop A maxc (c :: cs) (fuel + 1) =
      (nf :: (stepwise_loop A maxc nf fuel).1,
       (stepwise_loop A maxc nf fuel).2) := by
  have hb : bound_frontier A maxc nf = nf := by
    simp [bound_frontier, hsize]
  have hstep := stepwise_loop_cons_succ A maxc c cs fuel nf hexp
    (by rw [hb]; exact hne)
  rw [hb] at hstep
  exact hstep

/-- The successor of the self-loop configuration after one step, used as a
concrete input below. -/
def loopStep1 : PDAConfig :=
  ⟨"q0", [], [],
   ["Configuração inicial", "q0 → q0 [read: ε, pop: ε, push: ε]"]⟩

/-- C4 witness: one concrete productive iteration of the self-loop run, with
the full successor list entering the next frontier. -/
theorem C4_witness :
    stepwise_loop autLoop 500 [stepwise_initial_config autLoop []] (0 + 1) =
      ([loopStep1] :: (stepwise_loop autLoop 500 [loopStep1] 0).1,
       (stepwise_loop autLoop 500 [loopStep1] 0).2) :=
  C4_no_signature_cap autLoop 500 (stepwise_initial_config autLoop []) [] 0
    [loopStep1] (by decide) (by decide) (by decide)

/-- C5 counterexample: the initial configuration of `autFin` on empty input
is already accepting under `final_state` mode, yet `stepwise_run` does not
stop at that frontier: it keeps expanding, yields three more frontiers, and
dies on the step limit — `stepwise_run` performs no acceptance check at all,
so acceptance is not "checked eagerly at every step in both runs". -/
theorem C5_counterexample :
    is_accepting_configuration (stepwise_initial_config autFin []) autFin
        "final_state" = true ∧
    (stepwise_run autFin [] 3 500).1.length = 4 ∧
    (stepwise_run autFin [] 3 500).2 = StepwiseOutcome.stepLimitExceeded :=
  ⟨rfl, rfl, rfl⟩

/-- C5 (amended): the eager acceptance check exists only in `accepts`:
whenever some configuration of the current frontier satisfies the acceptance
predicate and the step budget is not exhausted, the `accepts` loop returns
`(True, history of the first accepting configuration)` without expanding —
the result does not even depend on the automaton's transition relation.
(`stepwise_run` has no acceptance check, per the counterexample.) -/
theorem C5_accepts_eager_no_expansion (A : Automaton) (ts : List Transition)
    (mode : String) (frontier : List PDAConfig) (fuel : Nat) (h : List String)
    (hacc : first_accepting_history A mode frontier = some h) :
    accepts_loop { A with transitions := ts } mode frontier (fuel + 1) =
      .ok (true, some h) := by
  cases frontier with
  | nil => exact absurd hacc (by simp [first_accepting_history])
  | cons c cs =>
    have hsame : ∀ f, first_accepting_history { A with transitions := ts } mode f
        = first_accepting_history A mode f := by
      intro f
      induction f with
      | nil => rfl
      | cons x xs ih =>
        unfold first_accepting_history
        rw [ih]
        rfl
    exact accepts_loop_found _ mode c cs fuel h ((hsame (c :: cs)).trans hacc)

/-- C5 witness: a concrete accepting frontier returns at once even after the
transition relation is replaced by the empty one. -/
theorem C5_witness :
    accepts_loop { autFin with transitions := [] } "final_state"
        [stepwise_initial_config autFin []] (0 + 1) =
      .ok (true, some ["Configuração inicial"]) :=
  C5_accepts_eager_no_expansion autFin [] "final_state"
    [stepwise_initial_config autFin []] 0 ["Configuração inicial"] (by decide)

/-- C8: whenever a run outlives its whole step budget — the frontier after
each of the first `max_steps` expansion steps is still nonempty, unaccepted
and error-free — the step index exceeds `max_steps` and both `stepwise_run`
and `accepts` fail with the step-limit error (`RuntimeError` in the code)
instead of returning a normal result. -/
theorem C8_step_limit_error (A : Automaton) (input : List String)
    (maxc max_steps : Nat) (mode : String)
    (h1 : ∀ k, k ≤ max_steps → frontier_alive A maxc mode
        [stepwise_initial_config A input] k = true)
    (h2 : ∀ k, k ≤ max_steps → frontier_alive A DEFAULT_MAX_CONFIGS mode
        [accepts_initial_config A input] k = true)
    (hmode : mode = "final_state" ∨ mode = "empty_stack") :
    (stepwise_run A input max_steps maxc).2
        = StepwiseOutcome.stepLimitExceeded ∧
    accepts A input max_steps mode = .error SimError.stepLimitExceeded := by
  constructor
  · exact stepwise_loop_limit A maxc mode max_steps _ h1
  · have hloop := accepts_loop_limit A mode max_steps _ h2
    rcases hmode with hm | hm <;> subst hm <;> exact hloop

/-- C8 witness: the self-loop automaton outlives a budget of two steps and
both runs fail with the step-limit error. -/
theorem C8_witness :
    (stepwise_run autLoop [] 2 500).2 = StepwiseOutcome.stepLimitExceeded ∧
    accepts autLoop [] 2 "final_state" = .error SimError.stepLimitExceeded :=
  C8_step_limit_error autLoop [] 500 2 "final_state" (by decide) (by decide)
    (Or.inl rfl)

/-- C10: both run entry points seed the initial configuration with a
completely empty stack — no initial stack symbol is ever pushed (the
embedded `Automaton`, like the code's, has no such field): the first yielded
frontier of every `stepwise_run` is exactly the singleton initial
configuration whose stack is `[]`, the `accepts` initial configuration also
has stack `[]`, and consequently `accepts` on the empty input under
`empty_stack` mode returns `(True, initial history)` immediately at step 0
for every automaton, under the default step limit. -/
theorem C10_empty_initial_stack :
    (∀ (A : Automaton) (input : List String) (max_steps maxc : Nat),
      (stepwise_run A input max_steps maxc).1.head?
          = some [stepwise_initial_config A input] ∧
      (stepwise_initial_config A input).stack = [] ∧
      (accepts_initial_config A input).stack = []) ∧
    (∀ A : Automaton,
      accepts A [] DEFAULT_MAX_STEPS "empty_stack"
        = .ok (true, some ["Início da execução"])) := by
  constructor
  · intro A input max_steps maxc
    exact ⟨rfl, rfl, rfl⟩
  · intro A
    have hstep : accepts A [] DEFAULT_MAX_STEPS "empty_stack"
        = accepts_loop A "empty_stack" [accepts_initial_config A []]
            (999 + 1) := rfl
    rw [hstep]
    exact accepts_loop_found A "empty_stack" (accepts_initial_config A []) []
      999 ["Início da execução"] rfl

/-! ### Heap model for the mutation/aliasing claim

Python configurations are mutable objects holding mutable lists. To settle
the no-mutation/no-aliasing property of `simulate_step`, the relevant state
is made explicit: lists live at numbered locations of a store, configuration
objects at numbered locations of a second store, and `PDAConfig.copy` /
`Stack.copy` allocate fresh locations. -/

/-- A `PDAConfig` object as it sits on the heap: an immutable state string
plus the locations of its three mutable lists (remaining input, stack
items, history). -/
structure ConfigObj where
  state : String
  inputLoc : Nat
  stackLoc : Nat
  histLoc : Nat
deriving DecidableEq, Repr

/-- The heap: a store of lists, a store of configuration objects, and the
two allocation frontiers. -/
structure Heap where
  lists : Nat → List String
  cfgs : Nat → ConfigObj
  nextList : Nat
  nextCfg : Nat

/-- Pointwise update of the list store. -/
def upd_list (f : Nat → List String) (a : Nat) (v : List String) :
    Nat → List String :=
  fun x => if x = a then v else f x

/-- Pointwise update of the configuration store. -/
def upd_cfg (f : Nat → ConfigObj) (a : Nat) (v : ConfigObj) :
    Nat → ConfigObj :=
  fun x => if x = a then v else f x

/-- Allocate a fresh list cell holding `v`. -/
def alloc_list (h : Heap) (v : List String) : Heap × Nat :=
  ({ h with
      lists := upd_list h.lists h.nextList v
      nextList := h.nextList + 1 }, h.nextList)

/-- Allocate a fresh configuration object. -/
def alloc_cfg (h : Heap) (c : ConfigObj) : Heap × Nat :=
  ({ h with
      cfgs := upd_cfg h.cfgs h.nextCfg c
      nextCfg := h.nextCfg + 1 }, h.nextCfg)

/-- In-place mutation of a list cell. -/
def write_list (h : Heap) (a : Nat) (v : List String) : Heap :=
  { h with lists := upd_list h.lists a v }

/-- In-place mutation of a configuration object (field assignment). -/
def write_cfg (h : Heap) (a : Nat) (v : ConfigObj) : Heap :=
  { h with cfgs := upd_cfg h.cfgs a v }

/-- `PDAConfig.copy` (with `Stack.copy` and `list.copy` inside): allocate
fresh copies of the three lists and a fresh configuration object pointing at
them; nothing of the original is written. -/
def config_copy_heap (h : Heap) (loc : Nat) : Heap × Nat :=
  let c := h.cfgs loc
  let r1 := alloc_list h (h.lists c.inputLoc)
  let r2 := alloc_list r1.1 (h.lists c.stackLoc)
  let r3 := alloc_list r2.1 (h.lists c.histLoc)
  alloc_cfg r3.1
    { state := c.state, inputLoc := r1.2, stackLoc := r2.2, histLoc := r3.2 }

/-- The `consume_input` step of `_apply_transition` on the copied
configuration at `n`: mutate its input list in place unless `read` is
epsilon or the wildcard; `none` is the `IndexError` on empty input. -/
def apply_input_heap (h : Heap) (n : Nat) (t : Transition) : Option Heap :=
  if t.read == "ε" || t.read == "?" then some h
  else
    match h.lists (h.cfgs n).inputLoc with
    | [] => none
    | _ :: rest => some (write_list h (h.cfgs n).inputLoc rest)

/-- The `pop` step of `_apply_transition` on the copied configuration at
`n`: pop its stack list in place unless `pop` is epsilon; `none` is the
`IndexError` on an empty stack. -/
def apply_pop_heap (h : Heap) (n : Nat) (t : Transition) : Option Heap :=
  if t.pop == "ε" then some h
  else
    match stack_pop (h.lists (h.cfgs n).stackLoc) with
    | none => none
    | some pr => some (write_list h (h.cfgs n).stackLoc pr.2)

/-- The `push` step of `_apply_transition` on the copied configuration at
`n`: extend its stack list in place (the code skips the call when `push` is
the empty tuple; pushing nothing would be a no-op anyway). -/
def apply_push_heap (h : Heap) (n : Nat) (t : Transition) : Heap :=
  if t.push.isEmpty then h
  else write_list h (h.cfgs n).stackLoc
    (stack_push (h.lists (h.cfgs n).stackLoc) t.push)

/-- The history-append step of `_apply_transition` on the copied
configuration at `n`. -/
def apply_hist_heap (h : Heap) (n : Nat) (t : Transition) : Heap :=
  write_list h (h.cfgs n).histLoc
    (h.lists (h.cfgs n).histLoc ++ [history_entry t])

/-- `config.copy()` followed by the `new_config.state` assignment: the first
two steps of `_apply_transition`. -/
def state_write_heap (h : Heap) (loc : Nat) (t : Transition) : Heap :=
  write_cfg (config_copy_heap h loc).1 (config_copy_heap h loc).2
    { (config_copy_heap h loc).1.cfgs (config_copy_heap h loc).2 with
        state := t.to_state }

/-- `_apply_transition` in the heap model: `config.copy()` first, then every
mutation (state assignment, `consume_input`, `pop`, `push`, history append)
targets the copy only. A `none` result models the raised `IndexError`; the
heap as mutated so far is returned either way. -/
def apply_transition_heap (h : Heap) (loc : Nat) (t : Transition) :
    Heap × Option Nat :=
  match apply_input_heap (state_write_heap h loc t)
      (config_copy_heap h loc).2 t with
  | none => (state_write_heap h loc t, none)
  | some h3 =>
    match apply_pop_heap h3 (config_copy_heap h loc).2 t with
    | none => (h3, none)
    | some h4 =>
      (apply_hist_heap (apply_push_heap h4 (config_copy_heap h loc).2 t)
        (config_copy_heap h loc).2 t, some (config_copy_heap h loc).2)

/-- The transition loop of `simulate_step` in the heap model, collecting the
locations of the successor configurations; the guard reads the current input
symbol and the stack top once, from the original configuration (as the code
does before its loop). -/
def sim_step_go (loc : Nat) (cur top : Option String) :
    Heap → List Transition → Heap × Option (List Nat)
  | h, [] => (h, some [])
  | h, t :: ts =>
    if is_transition_applicable t cur top then
      match (apply_transition_heap h loc t).2 with
      | none => ((apply_transition_heap h loc t).1, none)
      | some n =>
        match (sim_step_go loc cur top (apply_transition_heap h loc t).1
            ts).2 with
        | none =>
          ((sim_step_go loc cur top (apply_transition_heap h loc t).1 ts).1,
           none)
        | some ns =>
          ((sim_step_go loc cur top (apply_transition_heap h loc t).1 ts).1,
           some (n :: ns))
    else sim_step_go loc cur top h ts

/-- `simulate_step` in the heap model. -/
def simulate_step_heap (h : Heap) (loc : Nat) (A : Automaton) :
    Heap × Option (List Nat) :=
  sim_step_go loc ((h.lists (h.cfgs loc).inputLoc).head?)
    (stack_peek (h.lists (h.cfgs loc).stackLoc)) h
    (get_transitions_from A (h.cfgs loc).state)

/-- Reading an updated list cell at the written location. -/
theorem upd_list_self (f : Nat → List String) (a : Nat) (v : List String) :
    upd_list f a v a = v := by
  simp [upd_list]

/-- Reading an updated list cell elsewhere. -/
theorem upd_list_ne (f : Nat → List String) (a : Nat) (v : List String)
    {b : Nat} (hne : b ≠ a) : upd_list f a v b = f b := by
  simp [upd_list, hne]

/-- Reading an updated configuration cell at the written location. -/
theorem upd_cfg_self (f : Nat → ConfigObj) (a : Nat) (v : ConfigObj) :
    upd_cfg f a v a = v := by
  simp [upd_cfg]

/-- Reading an updated configuration cell elsewhere. -/
theorem upd_cfg_ne (f : Nat → ConfigObj) (a : Nat) (v : ConfigObj)
    {b : Nat} (hne : b ≠ a) : upd_cfg f a v b = f b := by
  simp [upd_cfg, hne]

/-- `h1` extends `h0`: everything already allocated in `h0` is untouched and
the allocation frontiers only move forward. -/
def HeapExtends (h0 h1 : Heap) : Prop :=
  (∀ a, a < h0.nextList → h1.lists a = h0.lists a) ∧
  (∀ a, a < h0.nextCfg → h1.cfgs a = h0.cfgs a) ∧
  h0.nextList ≤ h1.nextList ∧ h0.nextCfg ≤ h1.nextCfg

/-- Extension is reflexive. -/
theorem heap_extends_refl (h : Heap) : HeapExtends h h :=
  ⟨fun _ _ => rfl, fun _ _ => rfl, Nat.le_refl _, Nat.le_refl _⟩

/-- Extension is transitive. -/
theorem heap_extends_trans {h0 h1 h2 : Heap} (x : HeapExtends h0 h1)
    (y : HeapExtends h1 h2) : HeapExtends h0 h2 := by
  refine ⟨?_, ?_, ?_, ?_⟩
  · intro a ha
    rw [y.1 a (lt_of_lt_of_le ha x.2.2.1), x.1 a ha]
  · intro a ha
    rw [y.2.1 a (lt_of_lt_of_le ha x.2.2.2), x.2.1 a ha]
  · exact le_trans x.2.2.1 y.2.2.1
  · exact le_trans x.2.2.2 y.2.2.2

/-- Writing a list cell at or beyond the base frontier preserves extension. -/
theorem heap_extends_write_list {h0 h1 : Heap} (x : HeapExtends h0 h1)
    {a : Nat} (ha : h0.nextList ≤ a) (v : List String) :
    HeapExtends h0 (write_list h1 a v) := by
  refine ⟨?_, x.2.1, x.2.2.1, x.2.2.2⟩
  intro b hb
  show upd_list h1.lists a v b = h0.lists b
  rw [upd_list_ne _ _ _ (by omega), x.1 b hb]

/-- Writing a configuration cell at or beyond the base frontier preserves
extension. -/
theorem heap_extends_write_cfg {h0 h1 : Heap} (x : HeapExtends h0 h1)
    {a : Nat} (ha : h0.nextCfg ≤ a) (v : ConfigObj) :
    HeapExtends h0 (write_cfg h1 a v) := by
  refine ⟨x.1, ?_, x.2.2.1, x.2.2.2⟩
  intro b hb
  show upd_cfg h1.cfgs a v b = h0.cfgs b
  rw [upd_cfg_ne _ _ _ (by omega), x.2.1 b hb]

/-- Everything `config_copy_heap` does: the returned location is the old
configuration frontier, both frontiers advance, nothing already allocated is
written, and the fresh object carries the original state string and the
three fresh list locations holding copies of the original lists. -/
theorem config_copy_heap_spec (h : Heap) (loc : Nat) :
    (config_copy_heap h loc).2 = h.nextCfg ∧
    (config_copy_heap h loc).1.nextList = h.nextList + 3 ∧
    (config_copy_heap h loc).1.nextCfg = h.nextCfg + 1 ∧
    HeapExtends h (config_copy_heap h loc).1 ∧
    (config_copy_heap h loc).1.cfgs h.nextCfg =
      ⟨(h.cfgs loc).state, h.nextList, h.nextList + 1, h.nextList + 2⟩ ∧
    (config_copy_heap h loc).1.lists h.nextList
        = h.lists (h.cfgs loc).inputLoc ∧
    (config_copy_heap h loc).1.lists (h.nextList + 1)
        = h.lists (h.cfgs loc).stackLoc ∧
    (config_copy_heap h loc).1.lists (h.nextList + 2)
        = h.lists (h.cfgs loc).histLoc := by
  refine ⟨rfl, rfl, rfl, ⟨?_, ?_, ?_, ?_⟩, ?_, ?_, ?_, ?_⟩
  · intro b hb
    show upd_list
        (upd_list (upd_list h.lists h.nextList (h.lists (h.cfgs loc).inputLoc))
          (h.nextList + 1) (h.lists (h.cfgs loc).stackLoc))
        (h.nextList + 1 + 1) (h.lists (h.cfgs loc).histLoc) b = h.lists b
    rw [upd_list_ne _ _ _ (by omega), upd_list_ne _ _ _ (by omega),
      upd_list_ne _ _ _ (by omega)]
  · intro b hb
    show upd_cfg h.cfgs h.nextCfg _ b = h.cfgs b
    rw [upd_cfg_ne _ _ _ (by omega)]
  · show h.nextList ≤ h.nextList + 1 + 1 + 1
    omega
  · show h.nextCfg ≤ h.nextCfg + 1
    omega
  · show upd_cfg h.cfgs h.nextCfg _ h.nextCfg = _
    rw [upd_cfg_self]
    rfl
  · show upd_list
        (upd_list (upd_list h.lists h.nextList (h.lists (h.cfgs loc).inputLoc))
          (h.nextList + 1) (h.lists (h.cfgs loc).stackLoc))
        (h.nextList + 1 + 1) (h.lists (h.cfgs loc).histLoc) h.nextList = _
    rw [upd_list_ne _ _ _ (by omega), upd_list_ne _ _ _ (by omega),
      upd_list_self]
  · show upd_list
        (upd_list (upd_list h.lists h.nextList (h.lists (h.cfgs loc).inputLoc))
          (h.nextList + 1) (h.lists (h.cfgs loc).stackLoc))
        (h.nextList + 1 + 1) (h.lists (h.cfgs loc).histLoc) (h.nextList + 1)
        = _
    rw [upd_list_ne _ _ _ (by omega), upd_list_self]
  · show upd_list
        (upd_list (upd_list h.lists h.nextList (h.lists (h.cfgs loc).inputLoc))
          (h.nextList + 1) (h.lists (h.cfgs loc).stackLoc))
        (h.nextList + 1 + 1) (h.lists (h.cfgs loc).histLoc)
        (h.nextList + 1 + 1) = _
    rw [upd_list_self]


/-- Invariant carried through the mutation steps of `_apply_transition`:
the heap extends the pre-call heap `h0`, and the copied configuration at `n`
is fresh: its object location is `h0`'s old configuration frontier and its
three list locations are the cells freshly allocated at `h0`'s old list
frontier. -/
def FreshCfgAt (h0 H : Heap) (n : Nat) : Prop :=
  HeapExtends h0 H ∧ n = h0.nextCfg ∧ n < H.nextCfg ∧
  (H.cfgs n).inputLoc = h0.nextList ∧
  (H.cfgs n).stackLoc = h0.nextList + 1 ∧
  (H.cfgs n).histLoc = h0.nextList + 2

/-- After `config.copy()` and the state-field assignment, the copy is fresh
and the pre-call heap is untouched. -/
theorem fresh_after_copy_write (h : Heap) (loc : Nat) (t : Transition) :
    FreshCfgAt h (state_write_heap h loc t) (config_copy_heap h loc).2 := by
  obtain ⟨h2eq, _, hcfgnext, hext, hobj, -, -, -⟩ := config_copy_heap_spec h loc
  unfold state_write_heap
  rw [h2eq]
  refine ⟨heap_extends_write_cfg hext (by omega) _, rfl, ?_, ?_, ?_, ?_⟩
  · simp only [write_cfg]
    omega
  · simp only [write_cfg]
    rw [upd_cfg_self, hobj]
  · simp only [write_cfg]
    rw [upd_cfg_self, hobj]
  · simp only [write_cfg]
    rw [upd_cfg_self, hobj]

/-- `consume_input` on the fresh copy keeps the pre-call heap untouched and
the copy fresh. -/
theorem apply_input_heap_fresh {h0 H : Heap} {n : Nat} {t : Transition}
    {H' : Heap} (hf : FreshCfgAt h0 H n)
    (heq : apply_input_heap H n t = some H') : FreshCfgAt h0 H' n := by
  unfold apply_input_heap at heq
  by_cases hr : (t.read == "ε" || t.read == "?") = true
  · rw [if_pos hr] at heq
    injection heq with heq2
    subst heq2
    exact hf
  · rw [if_neg hr] at heq
    cases hl : H.lists (H.cfgs n).inputLoc with
    | nil =>
      rw [hl] at heq
      exact Option.noConfusion heq
    | cons x rest =>
      rw [hl] at heq
      injection heq with heq2
      subst heq2
      exact ⟨heap_extends_write_list hf.1 hf.2.2.2.1.ge _, hf.2.1, hf.2.2.1,
        hf.2.2.2.1, hf.2.2.2.2.1, hf.2.2.2.2.2⟩

/-- The `pop` on the fresh copy keeps the pre-call heap untouched and the
copy fresh. -/
theorem apply_pop_heap_fresh {h0 H : Heap} {n : Nat} {t : Transition}
    {H' : Heap} (hf : FreshCfgAt h0 H n)
    (heq : apply_pop_heap H n t = some H') : FreshCfgAt h0 H' n := by
  unfold apply_pop_heap at heq
  by_cases hp : (t.pop == "ε") = true
  · rw [if_pos hp] at heq
    injection heq with heq2
    subst heq2
    exact hf
  · rw [if_neg hp] at heq
    cases hl : stack_pop (H.lists (H.cfgs n).stackLoc) with
    | none =>
      rw [hl] at heq
      exact Option.noConfusion heq
    | some pr =>
      rw [hl] at heq
      injection heq with heq2
      subst heq2
      refine ⟨heap_extends_write_list hf.1 ?_ _, hf.2.1, hf.2.2.1,
        hf.2.2.2.1, hf.2.2.2.2.1, hf.2.2.2.2.2⟩
      rw [hf.2.2.2.2.1]
      omega

/-- The `push` on the fresh copy keeps the pre-call heap untouched and the
copy fresh. -/
theorem apply_push_heap_fresh {h0 H : Heap} {n : Nat} (t : Transition)
    (hf : FreshCfgAt h0 H n) : FreshCfgAt h0 (apply_push_heap H n t) n := by
  unfold apply_push_heap
  by_cases hp : t.push.isEmpty = true
  · rw [if_pos hp]
    exact hf
  · rw [if_neg hp]
    refine ⟨heap_extends_write_list hf.1 ?_ _, hf.2.1, hf.2.2.1,
      hf.2.2.2.1, hf.2.2.2.2.1, hf.2.2.2.2.2⟩
    rw [hf.2.2.2.2.1]
    omega

/-- The history append on the fresh copy keeps the pre-call heap untouched
and the copy fresh. -/
theorem apply_hist_heap_fresh {h0 H : Heap} {n : Nat} (t : Transition)
    (hf : FreshCfgAt h0 H n) : FreshCfgAt h0 (apply_hist_heap H n t) n := by
  unfold apply_hist_heap
  refine ⟨heap_extends_write_list hf.1 ?_ _, hf.2.1, hf.2.2.1,
    hf.2.2.2.1, hf.2.2.2.2.1, hf.2.2.2.2.2⟩
  rw [hf.2.2.2.2.2]
  omega

/-- `_apply_transition` never writes to anything allocated before the call,
and on success the returned configuration is the fresh copy, disjoint from
everything pre-existing. -/
theorem apply_transition_heap_spec (h : Heap) (loc : Nat) (t : Transition) :
    HeapExtends h (apply_transition_heap h loc t).1 ∧
    ∀ n, (apply_transition_heap h loc t).2 = some n →
      FreshCfgAt h (apply_transition_heap h loc t).1 n := by
  have hf0 := fresh_after_copy_write h loc t
  unfold apply_transition_heap
  cases hin : apply_input_heap (state_write_heap h loc t)
      (config_copy_heap h loc).2 t with
  | none =>
    simp only [hin]
    exact ⟨hf0.1, fun n hn => Option.noConfusion hn⟩
  | some h3 =>
    have hf3 := apply_input_heap_fresh hf0 hin
    simp only [hin]
    cases hpop : apply_pop_heap h3 (config_copy_heap h loc).2 t with
    | none =>
      simp only [hpop]
      exact ⟨hf3.1, fun n hn => Option.noConfusion hn⟩
    | some h4 =>
      have hf4 := apply_pop_heap_fresh hf3 hpop
      have hf6 := apply_hist_heap_fresh t (apply_push_heap_fresh t hf4)
      simp only [hpop]
      refine ⟨hf6.1, ?_⟩
      intro m hm
      injection hm with hm2
      subst hm2
      exact hf6


/-- The transition loop of `simulate_step` in the heap model never writes to
anything allocated before the call, and every returned successor location is
a fresh configuration whose list locations are all fresh as well. -/
theorem sim_step_go_spec (loc : Nat) (cur top : Option String) :
    ∀ (ts : List Transition) (h : Heap),
      HeapExtends h (sim_step_go loc cur top h ts).1 ∧
      ∀ ns, (sim_step_go loc cur top h ts).2 = some ns →
        ∀ n ∈ ns, h.nextCfg ≤ n ∧
          n < (sim_step_go loc cur top h ts).1.nextCfg ∧
          h.nextList ≤ ((sim_step_go loc cur top h ts).1.cfgs n).inputLoc ∧
          h.nextList ≤ ((sim_step_go loc cur top h ts).1.cfgs n).stackLoc ∧
          h.nextList ≤ ((sim_step_go loc cur top h ts).1.cfgs n).histLoc := by
  intro ts
  induction ts with
  | nil =>
    intro h
    refine ⟨heap_extends_refl h, ?_⟩
    intro ns hns n hn
    injection hns with h2
    subst h2
    exact absurd hn (List.not_mem_nil n)
  | cons t ts ih =>
    intro h
    obtain ⟨hext1, hfresh1⟩ := apply_transition_heap_spec h loc t
    obtain ⟨hext2, hbounds2⟩ := ih (apply_transition_heap h loc t).1
    unfold sim_step_go
    by_cases happ : is_transition_applicable t cur top = true
    · rw [if_pos happ]
      cases hat : (apply_transition_heap h loc t).2 with
      | none =>
        simp only
        exact ⟨hext1, fun ns hns => Option.noConfusion hns⟩
      | some n =>
        have hf1 := hfresh1 n hat
        simp only
        cases hrec : (sim_step_go loc cur top
            (apply_transition_heap h loc t).1 ts).2 with
        | none =>
          simp only
          exact ⟨heap_extends_trans hext1 hext2,
            fun ns hns => Option.noConfusion hns⟩
        | some ns =>
          simp only
          refine ⟨heap_extends_trans hext1 hext2, ?_⟩
          intro ms hms m hm
          injection hms with hms2
          subst hms2
          rcases List.mem_cons.mp hm with hm1 | hm2
          · subst hm1
            have hcfg := hext2.2.1 m hf1.2.2.1
            refine ⟨hf1.2.1.ge, lt_of_lt_of_le hf1.2.2.1 hext2.2.2.2,
              ?_, ?_, ?_⟩
            · rw [hcfg, hf1.2.2.2.1]
            · rw [hcfg, hf1.2.2.2.2.1]
              omega
            · rw [hcfg, hf1.2.2.2.2.2]
              omega
          · have hb := hbounds2 ns hrec m hm2
            have hcle : h.nextCfg ≤ (apply_transition_heap h loc t).1.nextCfg :=
              hext1.2.2.2
            have hlle : h.nextList ≤ (apply_transition_heap h loc t).1.nextList :=
              hext1.2.2.1
            exact ⟨le_trans hcle hb.1, hb.2.1, le_trans hlle hb.2.2.1,
              le_trans hlle hb.2.2.2.1, le_trans hlle hb.2.2.2.2⟩
    · rw [if_neg happ]
      exact ih h

/-- C9: `simulate_step` never mutates the configuration it is given — with
every pre-call allocation below the heap frontiers, the original
configuration object (its state and its three list pointers) and the
contents of its input, stack and history lists are identical before and
after the call — and every returned successor is an independent copy: its
object location differs from the original's and its three list locations
are disjoint from all three of the original's. -/
theorem C9_simulate_step_no_mutation (h : Heap) (loc : Nat) (A : Automaton)
    (hcfg : loc < h.nextCfg)
    (hin : (h.cfgs loc).inputLoc < h.nextList)
    (hst : (h.cfgs loc).stackLoc < h.nextList)
    (hht : (h.cfgs loc).histLoc < h.nextList) :
    (simulate_step_heap h loc A).1.cfgs loc = h.cfgs loc ∧
    (simulate_step_heap h loc A).1.lists ((h.cfgs loc).inputLoc)
        = h.lists ((h.cfgs loc).inputLoc) ∧
    (simulate_step_heap h loc A).1.lists ((h.cfgs loc).stackLoc)
        = h.lists ((h.cfgs loc).stackLoc) ∧
    (simulate_step_heap h loc A).1.lists ((h.cfgs loc).histLoc)
        = h.lists ((h.cfgs loc).histLoc) ∧
    ∀ ns, (simulate_step_heap h loc A).2 = some ns → ∀ n ∈ ns,
      n ≠ loc ∧
      ((simulate_step_heap h loc A).1.cfgs n).inputLoc
          ≠ (h.cfgs loc).inputLoc ∧
      ((simulate_step_heap h loc A).1.cfgs n).inputLoc
          ≠ (h.cfgs loc).stackLoc ∧
      ((simulate_step_heap h loc A).1.cfgs n).inputLoc
          ≠ (h.cfgs loc).histLoc ∧
      ((simulate_step_heap h loc A).1.cfgs n).stackLoc
          ≠ (h.cfgs loc).inputLoc ∧
      ((simulate_step_heap h loc A).1.cfgs n).stackLoc
          ≠ (h.cfgs loc).stackLoc ∧
      ((simulate_step_heap h loc A).1.cfgs n).stackLoc
          ≠ (h.cfgs loc).histLoc ∧
      ((simulate_step_heap h loc A).1.cfgs n).histLoc
          ≠ (h.cfgs loc).inputLoc ∧
      ((simulate_step_heap h loc A).1.cfgs n).histLoc
          ≠ (h.cfgs loc).stackLoc ∧
      ((simulate_step_heap h loc A).1.cfgs n).histLoc
          ≠ (h.cfgs loc).histLoc := by
  unfold simulate_step_heap
  obtain ⟨hext, hbounds⟩ := sim_step_go_spec loc
    ((h.lists (h.cfgs loc).inputLoc).head?)
    (stack_peek (h.lists (h.cfgs loc).stackLoc))
    (get_transitions_from A (h.cfgs loc).state) h
  refine ⟨hext.2.1 loc hcfg, hext.1 _ hin, hext.1 _ hst, hext.1 _ hht, ?_⟩
  intro ns hns n hn
  obtain ⟨hb1, hb2, hb3, hb4, hb5⟩ := hbounds ns hns n hn
  exact ⟨by omega, by omega, by omega, by omega, by omega, by omega,
    by omega, by omega, by omega, by omega⟩

/-- A concrete three-cell heap holding one configuration in state `q0` with
input list `a`, an empty stack list and an empty history list. -/
def heap0 : Heap :=
  { lists := fun a => if a = 0 then ["a"] else []
    cfgs := fun _ => ⟨"q0", 0, 1, 2⟩
    nextList := 3
    nextCfg := 1 }

/-- C9 witness: a concrete `simulate_step` call (which really applies the
`a`-reading transition of `autA`, mutating the copy) leaves the original
configuration object and its input list untouched. -/
theorem C9_witness :
    (simulate_step_heap heap0 0 autA).1.cfgs 0 = heap0.cfgs 0 ∧
    (simulate_step_heap heap0 0 autA).1.lists 0 = heap0.lists 0 :=
  ⟨(C9_simulate_step_no_mutation heap0 0 autA (by decide) (by decide)
      (by decide) (by decide)).1,
   (C9_simulate_step_no_mutation heap0 0 autA (by decide) (by decide)
      (by decide) (by decide)).2.1⟩
